import Mathlib

/-! Formal model of the qcdn failover reverse proxy (qcdn.go).

Strings are modelled as `List Char`.  The HTTP transport is external to the
repository; it is modelled as an oracle (`Upstream`) that maps each upstream
target to its outcome, matching the interface the code consumes: a request
either fails with an error (`none`) or yields a `Response` (status, headers,
body).  Go maps are modelled as association lists where insertion prepends and
lookup takes the first match, which gives overwrite (last-write-wins)
semantics. -/

namespace Qcdn

/-- Go `strings.SplitN(s, sep, 2)` for a one-character separator: `none` when
the separator does not occur (Go returns a single part, so `len(parts) != 2`),
otherwise the parts before and after the first occurrence. -/
def splitOnFirst (sep : Char) : List Char → Option (List Char × List Char)
  | [] => none
  | c :: cs =>
    if c = sep then some ([], cs)
    else
      match splitOnFirst sep cs with
      | none => none
      | some (a, b) => some (c :: a, b)

/-- `urlBase` from qcdn.go: a scheme+host pair. -/
structure urlBase where
  scheme : List Char
  host : List Char
deriving DecidableEq

/-- `resource` from qcdn.go: a `urlBase` plus a path. -/
structure resource where
  base : urlBase
  path : List Char
deriving DecidableEq

/-- `urlStrategy` from qcdn.go: the backup and boot origins of a strategy. -/
structure urlStrategy where
  backup : urlBase
  boot : urlBase
deriving DecidableEq

/-- `makeProxyPath` from qcdn.go: `"/" + scheme + "," + host + path`. -/
def makeProxyPath (scheme host path : List Char) : List Char :=
  '/' :: (scheme ++ ',' :: (host ++ path))

/-- `parseProxyPath` from qcdn.go: drop the leading slash, split on the first
slash into origin segment and resource path, then split the origin segment on
the first comma into scheme and host. -/
def parseProxyPath (proxyPath : List Char) : Option resource :=
  match splitOnFirst '/' (proxyPath.drop 1) with
  | none => none
  | some (part0, part1) =>
    match splitOnFirst ',' part0 with
    | none => none
    | some (scheme, host) => some ⟨⟨scheme, host⟩, '/' :: part1⟩

/-- Lookup in a Go map modelled as an association list (first match wins). -/
def lookupA {α β : Type} [DecidableEq α] : List (α × β) → α → Option β
  | [], _ => none
  | (k, v) :: m, k2 => if k2 = k then some v else lookupA m k2

/-- Go map assignment `m[k] = v`, modelled as prepending so that the new
binding shadows any older one. -/
def insertA {α β : Type} (m : List (α × β)) (k : α) (v : β) : List (α × β) :=
  (k, v) :: m

/-- An upstream HTTP response as the code consumes it. -/
structure Response where
  status : Nat
  headers : List (List Char × List Char)
  body : List Char
deriving DecidableEq

/-- A write to the client-side response writer: a header/status commit
(`copyHeader` + `WriteHeader`) or a body chunk (`io.Copy` / error text). -/
inductive RespEvent where
  | header (status : Nat) (headers : List (List Char × List Char))
  | bodyChunk (chunk : List Char)
deriving DecidableEq

/-- `http.Error(w, msg, code)`: commits the status code and writes the
message as the body. -/
def httpError (msg : List Char) (status : Nat) : List RespEvent :=
  [RespEvent.header status [], RespEvent.bodyChunk msg]

/-- Whether an upstream attempt is made with the plain client (`p.client`) or
with the per-request copy that installs the redirect-tracking
`CheckRedirect` callback. -/
inductive ClientMode where
  | plain
  | tracked
deriving DecidableEq

/-- One upstream attempt: the rewritten target and the client used for it. -/
structure UpstreamCall where
  target : resource
  mode : ClientMode
deriving DecidableEq

/-- Oracle for the external HTTP transport.  `plain target` is the outcome of
a `client.Do` call on the unmodified client (`none` = network error).
`tracked target` gives the chain of redirect hops the origins would serve for
`target` together with the final outcome, consumed by the redirect-tracking
client of the cache-miss path. -/
structure Upstream where
  plain : resource → Option Response
  tracked : resource → List resource × Option Response

/-- The `CheckRedirect` callback installed on the cache-miss path
(qcdn.go lines 166-172): return an error once ten requests have already been
made, otherwise record the hop and allow it. -/
def checkRedirect (via : List resource) : Option (List Char) :=
  if 10 ≤ via.length then some ("stopped after 10 redirects".toList) else none

/-- The redirect loop of `client.Do` under the tracking callback: before each
hop the callback sees the requests made so far (`via`); on refusal `Do`
returns an error (second component `true`), otherwise `lastReq` records the
most recent hop. -/
def followChain (via : List resource) (chain : List resource)
    (lastReq : Option resource) : Option resource × Bool :=
  match chain with
  | [] => (lastReq, false)
  | r :: rest =>
    match checkRedirect via with
    | some _ => (lastReq, true)
    | none => followChain (via ++ [r]) rest (some r)

/-- `serveRequest` from qcdn.go, applied to the outcome of `client.Do`: on a
network error or a 5xx response nothing is written and `false` is returned;
otherwise headers, status and body are streamed to the client and the result
is `true`. -/
def serveRequest (outcome : Option Response) : List RespEvent × Bool :=
  match outcome with
  | none => ([], false)
  | some resp =>
    if resp.status / 100 = 5 then ([], false)
    else ([RespEvent.header resp.status resp.headers,
           RespEvent.bodyChunk resp.body], true)

/-- The proxy state the handler reads and writes: the strategy table and the
redirect cache. -/
structure QcdnProxy where
  strategies : List (urlBase × urlStrategy)
  redirects : List (resource × resource)
deriving DecidableEq

/-- Result of one handler invocation: the writes to the client in order, the
upstream attempts made in order, and the redirect cache afterwards. -/
structure HandleResult where
  events : List RespEvent
  calls : List UpstreamCall
  redirects : List (resource × resource)
deriving DecidableEq

/-- Tail of `handle` from qcdn.go (strategy lookup and backup attempt).
`curHost` is `url.Host` at that point, i.e. the host of the attempt just
made; `evs` and `calls` are what has been written and attempted so far. -/
def handleBackup (p : QcdnProxy) (env : Upstream) (uri : resource)
    (curHost : List Char) (evs : List RespEvent) (calls : List UpstreamCall) :
    HandleResult :=
  match lookupA p.strategies uri.base with
  | none => ⟨evs ++ httpError ("url strategy not found".toList) 500, calls, p.redirects⟩
  | some s =>
    if curHost ≠ s.backup.host then
      let sr := serveRequest (env.plain ⟨s.backup, uri.path⟩)
      let calls2 := calls ++ [⟨⟨s.backup, uri.path⟩, ClientMode.plain⟩]
      if sr.2 then ⟨evs ++ sr.1, calls2, insertA p.redirects uri ⟨s.backup, uri.path⟩⟩
      else ⟨evs ++ sr.1 ++ httpError ("both main and backup server fail".toList) 500,
            calls2, p.redirects⟩
    else ⟨evs ++ httpError ("both main and backup server fail".toList) 500,
          calls, p.redirects⟩

/-- `handle` from qcdn.go: decode the proxy path; on a cached redirect use the
cached target with the plain client; otherwise attempt the decoded origin
with the redirect-tracking client, and when that succeeds and a redirect was
observed, cache the last hop.  Every other outcome falls through to
`handleBackup`. -/
def handle (p : QcdnProxy) (env : Upstream) (path : List Char) : HandleResult :=
  match parseProxyPath path with
  | none => ⟨httpError ("invalid proxy path".toList) 500, [], p.redirects⟩
  | some uri =>
    match lookupA p.redirects uri with
    | some uriRedirect =>
      let sr := serveRequest (env.plain uriRedirect)
      if sr.2 then ⟨sr.1, [⟨uriRedirect, ClientMode.plain⟩], p.redirects⟩
      else handleBackup p env uri uriRedirect.base.host sr.1
        [⟨uriRedirect, ClientMode.plain⟩]
    | none =>
      let tr := env.tracked uri
      let fc := followChain [uri] tr.1 none
      let sr := serveRequest (if fc.2 then none else tr.2)
      match fc.1 with
      | some lastReq =>
        if sr.2 then ⟨sr.1, [⟨uri, ClientMode.tracked⟩], insertA p.redirects uri lastReq⟩
        else handleBackup p env uri uri.base.host sr.1 [⟨uri, ClientMode.tracked⟩]
      | none => handleBackup p env uri uri.base.host sr.1 [⟨uri, ClientMode.tracked⟩]

/-- The parts of a parsed `net/url.URL` that the code uses. -/
structure URL where
  scheme : List Char
  host : List Char
  path : List Char
deriving DecidableEq

/-- Minimal `URL.String()` for the rewritten URL: scheme, `://`, host, path
(query and fragment are out of scope of the core). -/
def urlString (u : URL) : List Char :=
  u.scheme ++ ("://".toList) ++ u.host ++ u.path

/-- `MakeVodURL` from qcdn.go, with the result of `url.Parse(urlVod)` passed
in (`none` = parse error; `net/url` is external to the repository) and the
lazily-started proxy host as a parameter. -/
def MakeVodURL (strategies : List (urlBase × urlStrategy)) (proxyHost : List Char)
    (parsed : Option URL) (urlVod : List Char) (bootLen : Int) : List Char :=
  match parsed with
  | none => urlVod
  | some u =>
    match lookupA strategies ⟨u.scheme, u.host⟩ with
    | none => urlVod
    | some _ =>
      urlString ⟨"http".toList, proxyHost, makeProxyPath u.scheme u.host u.path⟩

/-- `urlBaseOf` from qcdn.go, with the `url.Parse` result passed in: panics
(modelled as `Except.error`) on a parse error or a non-empty path. -/
def urlBaseOf (parsed : Option URL) : Except (List Char) urlBase :=
  match parsed with
  | none => Except.error ("invalid urlBase".toList)
  | some u =>
    if u.path = [] then Except.ok ⟨u.scheme, u.host⟩
    else Except.error ("invalid urlBase".toList)

/-- `SetStrategy` from qcdn.go: validate the origin, backup and boot URLs via
`urlBaseOf`; a panic in any of them aborts before the table assignment runs. -/
def SetStrategy (strategies : List (urlBase × urlStrategy))
    (parsedBase parsedBackup parsedBoot : Option URL) :
    Except (List Char) (List (urlBase × urlStrategy)) :=
  match urlBaseOf parsedBase with
  | Except.error e => Except.error e
  | Except.ok ub =>
    match urlBaseOf parsedBackup with
    | Except.error e => Except.error e
    | Except.ok bk =>
      match urlBaseOf parsedBoot with
      | Except.error e => Except.error e
      | Except.ok bt => Except.ok (insertA strategies ub ⟨bk, bt⟩)

/-- Effect of a `SetStrategy` call on the strategy table: on panic the table
is the old one, since the panic unwinds before the map assignment. -/
def trySetStrategy (strategies : List (urlBase × urlStrategy))
    (parsedBase parsedBackup parsedBoot : Option URL) :
    List (urlBase × urlStrategy) :=
  match SetStrategy strategies parsedBase parsedBackup parsedBoot with
  | Except.ok st2 => st2
  | Except.error _ => strategies

/-- The outcome of the first (cached-redirect or primary) attempt of
`handle` for `uri`. -/
def primaryOutcome (p : QcdnProxy) (env : Upstream) (uri : resource) :
    Option Response :=
  match lookupA p.redirects uri with
  | some c => env.plain c
  | none =>
    if (followChain [uri] (env.tracked uri).1 none).2 then none
    else (env.tracked uri).2

/-- The host attempted first by `handle`, i.e. `url.Host` when the backup
check `url.Host != s.backup.host` runs. -/
def attemptedHost (p : QcdnProxy) (uri : resource) : List Char :=
  match lookupA p.redirects uri with
  | some c => c.base.host
  | none => uri.base.host

/-- The first upstream call `handle` makes for `uri`. -/
def primaryCall (p : QcdnProxy) (uri : resource) : UpstreamCall :=
  match lookupA p.redirects uri with
  | some c => ⟨c, ClientMode.plain⟩
  | none => ⟨uri, ClientMode.tracked⟩

/-- An upstream attempt fails iff `client.Do` errored or the response status
is a 5xx. -/
def attemptFails (outcome : Option Response) : Bool :=
  match outcome with
  | none => true
  | some r => r.status / 100 == 5

/-- The invocation observed at least one redirect on the cache-miss path for
`k` (within the ten-hop bound) and the final response was received and was
not a 5xx. -/
def redirectObservedSuccess (p : QcdnProxy) (env : Upstream) (k : resource) :
    Prop :=
  lookupA p.redirects k = none ∧
  (followChain [k] (env.tracked k).1 none).1.isSome = true ∧
  (followChain [k] (env.tracked k).1 none).2 = false ∧
  ∃ resp, (env.tracked k).2 = some resp ∧ resp.status / 100 ≠ 5

/-- The invocation fetched `k`'s path from the configured backup origin and
received a non-5xx response. -/
def backupSuccess (p : QcdnProxy) (env : Upstream) (k : resource) : Prop :=
  ∃ s resp, lookupA p.strategies k.base = some s ∧
    env.plain ⟨s.backup, k.path⟩ = some resp ∧ resp.status / 100 ≠ 5

/-- Running a sequence of handler invocations (each an oracle and a request
path, in order) from the redirect-cache state `m`, with the strategy table
fixed before serving.  The result is the redirect cache afterwards. -/
def runFrom (st : List (urlBase × urlStrategy)) (m : List (resource × resource))
    (tr : List (Upstream × List Char)) : List (resource × resource) :=
  tr.foldl (fun m2 s => (handle ⟨st, m2⟩ s.1 s.2).redirects) m

/-- The redirect cache produced by an actual history of handler invocations,
starting from the empty cache a fresh proxy has. -/
def runTrace (st : List (urlBase × urlStrategy))
    (tr : List (Upstream × List Char)) : List (resource × resource) :=
  runFrom st [] tr

/-- Splitting a list that is `a ++ sep :: b` with `sep` not occurring in `a`
yields exactly `(a, b)`. -/
theorem splitOnFirst_append (sep : Char) (a b : List Char) (ha : sep ∉ a) :
    splitOnFirst sep (a ++ sep :: b) = some (a, b) := by
  induction a with
  | nil => simp [splitOnFirst]
  | cons c cs ih =>
    have hc : ¬ c = sep := by
      intro h
      exact ha (by simp [h])
    have hcs : sep ∉ cs := fun h => ha (List.mem_cons_of_mem _ h)
    simp only [List.cons_append, splitOnFirst, if_neg hc, List.append_eq, ih hcs]

/-- A failed attempt writes nothing and reports `false`. -/
theorem serveRequest_of_fails (o : Option Response)
    (h : attemptFails o = true) : serveRequest o = ([], false) := by
  cases o with
  | none => rfl
  | some r =>
    have h5 : r.status / 100 = 5 := by
      simpa [attemptFails] using h
    simp [serveRequest, h5]

/-- A received non-5xx response is streamed and reported as success. -/
theorem serveRequest_of_ok (r : Response) (h : r.status / 100 ≠ 5) :
    serveRequest (some r) =
      ([RespEvent.header r.status r.headers, RespEvent.bodyChunk r.body], true) := by
  simp [serveRequest, h]

/-- A successful attempt received a non-5xx response. -/
theorem serveRequest_true (o : Option Response)
    (h : (serveRequest o).2 = true) : ∃ r, o = some r ∧ r.status / 100 ≠ 5 := by
  cases o with
  | none => simp [serveRequest] at h
  | some r =>
    by_cases h5 : r.status / 100 = 5
    · simp [serveRequest, h5] at h
    · exact ⟨r, rfl, h5⟩

/-- On a malformed path `handle` reduces to the error response. -/
theorem handle_parse_none (p : QcdnProxy) (env : Upstream) (path : List Char)
    (h : parseProxyPath path = none) :
    handle p env path =
      ⟨httpError ("invalid proxy path".toList) 500, [], p.redirects⟩ := by
  unfold handle
  rw [h]

/-- When the first attempt fails, `handle` reduces to the backup phase. -/
theorem handle_primary_fails (p : QcdnProxy) (env : Upstream) (path : List Char)
    (uri : resource) (hparse : parseProxyPath path = some uri)
    (hfail : attemptFails (primaryOutcome p env uri) = true) :
    handle p env path =
      handleBackup p env uri (attemptedHost p uri) [] [primaryCall p uri] := by
  cases hhit : lookupA p.redirects uri with
  | some c =>
    have hf : attemptFails (env.plain c) = true := by
      simpa [primaryOutcome, hhit] using hfail
    simp [handle, attemptedHost, primaryCall, hparse, hhit,
      serveRequest_of_fails _ hf]
  | none =>
    have hf : attemptFails
        (if (followChain [uri] (env.tracked uri).1 none).2 then none
         else (env.tracked uri).2) = true := by
      simpa [primaryOutcome, hhit] using hfail
    cases hfc : (followChain [uri] (env.tracked uri).1 none).1 with
    | some l =>
      simp [handle, attemptedHost, primaryCall, hparse, hhit, hfc,
        serveRequest_of_fails _ hf]
    | none =>
      simp [handle, attemptedHost, primaryCall, hparse, hhit, hfc,
        serveRequest_of_fails _ hf]

/-- Claim C7: a request whose path cannot be decoded is answered with a 500
server error and no upstream request is issued. -/
theorem C7_malformed_path_rejected (p : QcdnProxy) (env : Upstream)
    (path : List Char) (h : parseProxyPath path = none) :
    (handle p env path).events = httpError ("invalid proxy path".toList) 500 ∧
    (handle p env path).calls = [] ∧
    (handle p env path).redirects = p.redirects := by
  rw [handle_parse_none p env path h]
  exact ⟨rfl, rfl, rfl⟩

/-- A transport oracle where every upstream attempt errors. -/
def envNoNet : Upstream :=
  ⟨fun _ => none, fun _ => ([], none)⟩

/-- Witness for C7 at the concrete path `/abc` (no second slash). -/
theorem C7_malformed_path_rejected_witness :
    (handle ⟨[], []⟩ envNoNet ("/abc".toList)).events =
        httpError ("invalid proxy path".toList) 500 ∧
    (handle ⟨[], []⟩ envNoNet ("/abc".toList)).calls = [] ∧
    (handle ⟨[], []⟩ envNoNet ("/abc".toList)).redirects = [] :=
  C7_malformed_path_rejected ⟨[], []⟩ envNoNet ("/abc".toList) (by decide)

/-- Claim C2: for a resource key whose path begins with `/` (and not with the
ambiguous `//`), with scheme and host free of `,` and `/`, decoding the
encoding returns the key exactly. -/
theorem C2_codec_roundtrip (scheme host path : List Char)
    (hpath : path.head? = some '/')
    (hpath2 : path.take 2 ≠ ['/', '/'])
    (hs1 : ',' ∉ scheme) (hs2 : '/' ∉ scheme)
    (hh1 : ',' ∉ host) (hh2 : '/' ∉ host) :
    parseProxyPath (makeProxyPath scheme host path) =
      some ⟨⟨scheme, host⟩, path⟩ := by
  cases path with
  | nil => simp at hpath
  | cons c rest =>
    have hc : c = '/' := by simpa using hpath
    subst hc
    have hnot : '/' ∉ scheme ++ ',' :: host := by
      intro h
      rcases List.mem_append.mp h with h1 | h1
      · exact hs2 h1
      · rcases List.mem_cons.mp h1 with h2 | h2
        · exact absurd h2 (by decide)
        · exact hh2 h2
    have h1 : splitOnFirst '/' (scheme ++ ',' :: (host ++ '/' :: rest)) =
        some (scheme ++ ',' :: host, rest) := by
      have := splitOnFirst_append '/' (scheme ++ ',' :: host) rest hnot
      simpa [List.append_assoc] using this
    have h2 : splitOnFirst ',' (scheme ++ ',' :: host) = some (scheme, host) :=
      splitOnFirst_append ',' scheme host hs1
    unfold makeProxyPath parseProxyPath
    simp only [List.drop_succ_cons, List.drop_zero, h1, h2]

/-- Witness for C2 at scheme `https`, host `origin.example`, path
`/video.mp4`. -/
theorem C2_codec_roundtrip_witness :
    parseProxyPath (makeProxyPath ("https".toList) ("origin.example".toList)
        ("/video.mp4".toList)) =
      some ⟨⟨"https".toList, "origin.example".toList⟩, "/video.mp4".toList⟩ :=
  C2_codec_roundtrip ("https".toList) ("origin.example".toList)
    ("/video.mp4".toList) (by decide) (by decide) (by decide) (by decide)
    (by decide) (by decide)

/-- Claim C5: `MakeVodURL` returns its input unchanged whenever the URL is
unparseable or its scheme+host origin has no configured strategy. -/
theorem C5_makeVodURL_passthrough (strategies : List (urlBase × urlStrategy))
    (proxyHost : List Char) (parsed : Option URL) (urlVod : List Char)
    (bootLen : Int)
    (h : parsed = none ∨
      ∃ u, parsed = some u ∧ lookupA strategies ⟨u.scheme, u.host⟩ = none) :
    MakeVodURL strategies proxyHost parsed urlVod bootLen = urlVod := by
  rcases h with h | ⟨u, hu, hl⟩
  · rw [h]
    rfl
  · simp [MakeVodURL, hu, hl]

/-- Witness for C5: an empty strategy table passes a parsed URL through. -/
theorem C5_makeVodURL_passthrough_witness :
    MakeVodURL [] ("127.0.0.1:1234".toList)
        (some ⟨"https".toList, "origin.example".toList, "/video.mp4".toList⟩)
        ("https://origin.example/video.mp4".toList) 0 =
      "https://origin.example/video.mp4".toList :=
  C5_makeVodURL_passthrough [] ("127.0.0.1:1234".toList)
    (some ⟨"https".toList, "origin.example".toList, "/video.mp4".toList⟩)
    ("https://origin.example/video.mp4".toList) 0
    (Or.inr ⟨⟨"https".toList, "origin.example".toList, "/video.mp4".toList⟩,
      rfl, rfl⟩)

/-- `urlBaseOf` panics on a URL whose parsed path is non-empty. -/
theorem urlBaseOf_error_of_path (parsed : Option URL)
    (h : ∃ u, parsed = some u ∧ u.path ≠ []) :
    ∃ e, urlBaseOf parsed = Except.error e := by
  rcases h with ⟨u, hu, hp⟩
  subst hu
  exact ⟨"invalid urlBase".toList, by simp [urlBaseOf, hp]⟩

/-- Claim C8: `SetStrategy` panics when the origin, backup or boot URL
carries a non-empty path, and the strategy table is left unchanged. -/
theorem C8_setStrategy_rejects_nonempty_path
    (strategies : List (urlBase × urlStrategy))
    (parsedBase parsedBackup parsedBoot : Option URL)
    (h : (∃ u, parsedBase = some u ∧ u.path ≠ []) ∨
         (∃ u, parsedBackup = some u ∧ u.path ≠ []) ∨
         (∃ u, parsedBoot = some u ∧ u.path ≠ [])) :
    (∃ e, SetStrategy strategies parsedBase parsedBackup parsedBoot =
      Except.error e) ∧
    trySetStrategy strategies parsedBase parsedBackup parsedBoot = strategies := by
  have herr : ∃ e, SetStrategy strategies parsedBase parsedBackup parsedBoot =
      Except.error e := by
    unfold SetStrategy
    rcases h with h | h | h
    · obtain ⟨e, he⟩ := urlBaseOf_error_of_path parsedBase h
      rw [he]
      exact ⟨e, rfl⟩
    · cases h1 : urlBaseOf parsedBase with
      | error e => exact ⟨e, rfl⟩
      | ok ub =>
        obtain ⟨e, he⟩ := urlBaseOf_error_of_path parsedBackup h
        rw [he]
        exact ⟨e, rfl⟩
    · cases h1 : urlBaseOf parsedBase with
      | error e => exact ⟨e, rfl⟩
      | ok ub =>
        cases h2 : urlBaseOf parsedBackup with
        | error e => exact ⟨e, rfl⟩
        | ok bk =>
          obtain ⟨e, he⟩ := urlBaseOf_error_of_path parsedBoot h
          rw [he]
          exact ⟨e, rfl⟩
  refine ⟨herr, ?_⟩
  obtain ⟨e, he⟩ := herr
  unfold trySetStrategy
  rw [he]

/-- Witness for C8: configuring an origin URL that carries the path `/x`
fails and leaves a concrete one-entry table unchanged. -/
theorem C8_setStrategy_rejects_nonempty_path_witness :
    (∃ e, SetStrategy
        [(⟨"http".toList, "a.example".toList⟩,
          ⟨⟨"http".toList, "b.example".toList⟩, ⟨[], []⟩⟩)]
        (some ⟨"https".toList, "origin.example".toList, "/x".toList⟩)
        (some ⟨"https".toList, "backup.example".toList, []⟩)
        (some ⟨[], [], []⟩) = Except.error e) ∧
    trySetStrategy
        [(⟨"http".toList, "a.example".toList⟩,
          ⟨⟨"http".toList, "b.example".toList⟩, ⟨[], []⟩⟩)]
        (some ⟨"https".toList, "origin.example".toList, "/x".toList⟩)
        (some ⟨"https".toList, "backup.example".toList, []⟩)
        (some ⟨[], [], []⟩) =
      [(⟨"http".toList, "a.example".toList⟩,
        ⟨⟨"http".toList, "b.example".toList⟩, ⟨[], []⟩⟩)] :=
  C8_setStrategy_rejects_nonempty_path _ _ _ _
    (Or.inl ⟨⟨"https".toList, "origin.example".toList, "/x".toList⟩, rfl,
      by decide⟩)

/-- The freshly inserted binding shadows older ones. -/
theorem lookupA_insertA_self {α β : Type} [DecidableEq α]
    (m : List (α × β)) (k : α) (v : β) : lookupA (insertA m k v) k = some v := by
  simp [insertA, lookupA]

/-- Insertion never removes a present key. -/
theorem lookupA_insertA_isSome {α β : Type} [DecidableEq α]
    (m : List (α × β)) (k k2 : α) (v : β)
    (h : (lookupA m k2).isSome = true) :
    (lookupA (insertA m k v) k2).isSome = true := by
  by_cases hk : k2 = k
  · subst hk
    simp [lookupA_insertA_self]
  · simpa [insertA, lookupA, hk] using h

/-- When a strategy exists and the attempted host differs from the backup
host, the backup phase makes exactly one further upstream call, to the
backup origin with the original path. -/
theorem handleBackup_calls_of_attempt (p : QcdnProxy) (env : Upstream)
    (uri : resource) (curHost : List Char) (evs : List RespEvent)
    (calls : List UpstreamCall) (s : urlStrategy)
    (hs : lookupA p.strategies uri.base = some s)
    (hhost : curHost ≠ s.backup.host) :
    (handleBackup p env uri curHost evs calls).calls =
      calls ++ [⟨⟨s.backup, uri.path⟩, ClientMode.plain⟩] := by
  by_cases hsr : (serveRequest (env.plain ⟨s.backup, uri.path⟩)).2 = true
  · simp [handleBackup, hs, hhost, hsr]
  · simp [handleBackup, hs, hhost, hsr]

/-- The backup phase only appends to the list of attempts made so far. -/
theorem handleBackup_calls_extends (p : QcdnProxy) (env : Upstream)
    (uri : resource) (curHost : List Char) (evs : List RespEvent)
    (calls : List UpstreamCall) :
    ∃ rest, (handleBackup p env uri curHost evs calls).calls = calls ++ rest := by
  cases hstr : lookupA p.strategies uri.base with
  | none => exact ⟨[], by simp [handleBackup, hstr]⟩
  | some s =>
    by_cases hhost : curHost ≠ s.backup.host
    · exact ⟨[⟨⟨s.backup, uri.path⟩, ClientMode.plain⟩],
        handleBackup_calls_of_attempt p env uri curHost evs calls s hstr hhost⟩
    · exact ⟨[], by simp [handleBackup, hstr, hhost]⟩

/-- Claim C3: on a redirect-cache hit the handler rewrites the target to the
cached resolved resource, issues exactly one upstream request with the plain
client (no redirect-tracking override), and a non-5xx response is streamed
back verbatim, terminating the handler with no cache change. -/
theorem C3_cache_hit_single_attempt (p : QcdnProxy) (env : Upstream)
    (path : List Char) (uri c : resource) (resp : Response)
    (hparse : parseProxyPath path = some uri)
    (hhit : lookupA p.redirects uri = some c)
    (hresp : env.plain c = some resp)
    (h5 : resp.status / 100 ≠ 5) :
    handle p env path =
      ⟨[RespEvent.header resp.status resp.headers, RespEvent.bodyChunk resp.body],
       [⟨c, ClientMode.plain⟩], p.redirects⟩ := by
  simp [handle, hparse, hhit, hresp, serveRequest_of_ok resp h5]

/-- Concrete origins, resources and paths used by the witnesses below. -/
def ubOrigin : urlBase := ⟨"http".toList, "origin.example".toList⟩

/-- The backup origin used by the witnesses. -/
def ubBackup : urlBase := ⟨"http".toList, "backup.example".toList⟩

/-- The decoded resource of the witness request. -/
def uriMain : resource := ⟨ubOrigin, "/hello".toList⟩

/-- A previously resolved (cached) resource on a third origin. -/
def uriCached : resource := ⟨⟨"http".toList, "cdn.example".toList⟩, "/real".toList⟩

/-- The encoded proxy path of `uriMain`. -/
def pathMain : List Char := "/http,origin.example/hello".toList

/-- A one-entry strategy table: `ubOrigin` falls back to `ubBackup`. -/
def stMain : List (urlBase × urlStrategy) := [(ubOrigin, ⟨ubBackup, ⟨[], []⟩⟩)]

/-- A 200 response. -/
def resp200 : Response := ⟨200, [], "payload".toList⟩

/-- A 500 response. -/
def resp500 : Response := ⟨500, [], "fail".toList⟩

/-- Transport oracle for the C3 witness: every plain attempt yields 200. -/
def envHit : Upstream := ⟨fun _ => some resp200, fun _ => ([], none)⟩

/-- Witness for C3: a cached entry for `uriMain` is served from `uriCached`
with one plain-client attempt. -/
theorem C3_cache_hit_single_attempt_witness :
    handle ⟨stMain, [(uriMain, uriCached)]⟩ envHit pathMain =
      ⟨[RespEvent.header 200 [], RespEvent.bodyChunk ("payload".toList)],
       [⟨uriCached, ClientMode.plain⟩], [(uriMain, uriCached)]⟩ :=
  C3_cache_hit_single_attempt ⟨stMain, [(uriMain, uriCached)]⟩ envHit pathMain
    uriMain uriCached resp200 (by decide) (by decide) rfl (by decide)

/-- Claim C4: when the first attempt failed, a strategy exists, and the
backup host differs from the attempted host, the handler makes exactly one
more request, to the backup origin with the original decoded path; a non-5xx
backup response is streamed back, the mapping decoded key to
(backup origin, original path) is recorded, and a subsequent request for the
same path goes straight to the backup. -/
theorem C4_backup_failover (p : QcdnProxy) (env env2 : Upstream)
    (path : List Char) (uri : resource) (s : urlStrategy) (resp : Response)
    (hparse : parseProxyPath path = some uri)
    (hfail : attemptFails (primaryOutcome p env uri) = true)
    (hs : lookupA p.strategies uri.base = some s)
    (hhost : attemptedHost p uri ≠ s.backup.host)
    (hbk : env.plain ⟨s.backup, uri.path⟩ = some resp)
    (h5 : resp.status / 100 ≠ 5) :
    handle p env path =
      ⟨[RespEvent.header resp.status resp.headers, RespEvent.bodyChunk resp.body],
       [primaryCall p uri, ⟨⟨s.backup, uri.path⟩, ClientMode.plain⟩],
       insertA p.redirects uri ⟨s.backup, uri.path⟩⟩ ∧
    (handle ⟨p.strategies, insertA p.redirects uri ⟨s.backup, uri.path⟩⟩
        env2 path).calls.head? =
      some ⟨⟨s.backup, uri.path⟩, ClientMode.plain⟩ := by
  constructor
  · rw [handle_primary_fails p env path uri hparse hfail]
    simp [handleBackup, hs, hhost, hbk, serveRequest_of_ok resp h5]
  · have hl : lookupA (insertA p.redirects uri ⟨s.backup, uri.path⟩) uri =
        some ⟨s.backup, uri.path⟩ := lookupA_insertA_self _ _ _
    by_cases hsr : (serveRequest (env2.plain ⟨s.backup, uri.path⟩)).2 = true
    · simp [handle, hparse, hl, hsr]
    · obtain ⟨rest, hrest⟩ := handleBackup_calls_extends
        ⟨p.strategies, insertA p.redirects uri ⟨s.backup, uri.path⟩⟩ env2 uri
        (s.backup.host)
        (serveRequest (env2.plain ⟨s.backup, uri.path⟩)).1
        [⟨⟨s.backup, uri.path⟩, ClientMode.plain⟩]
      simp [handle, hparse, hl, hsr, hrest]

/-- Transport oracle for the C4 witness: the primary answers 500, the backup
(plain client) answers 200. -/
def envC4 : Upstream := ⟨fun _ => some resp200, fun _ => ([], some resp500)⟩

/-- Witness for C4 in the `TestQcdn_MainFail` shape: primary 500, backup 200;
the backup response is streamed, the mapping is cached, and a second request
(under an oracle with no network at all) still heads straight for the
backup. -/
theorem C4_backup_failover_witness :
    handle ⟨stMain, []⟩ envC4 pathMain =
      ⟨[RespEvent.header 200 [], RespEvent.bodyChunk ("payload".toList)],
       [⟨uriMain, ClientMode.tracked⟩,
        ⟨⟨ubBackup, "/hello".toList⟩, ClientMode.plain⟩],
       [(uriMain, ⟨ubBackup, "/hello".toList⟩)]⟩ ∧
    (handle ⟨stMain, [(uriMain, ⟨ubBackup, "/hello".toList⟩)]⟩ envNoNet
        pathMain).calls.head? =
      some ⟨⟨ubBackup, "/hello".toList⟩, ClientMode.plain⟩ :=
  C4_backup_failover ⟨stMain, []⟩ envC4 envNoNet pathMain uriMain
    ⟨ubBackup, ⟨[], []⟩⟩ resp200 (by decide) (by decide) (by decide)
    (by decide) rfl (by decide)

/-- Refusal happens exactly when ten requests have already been made, so any
chain that still has hops left at that point aborts with an error. -/
theorem followChain_exceeded (chain : List resource) :
    ∀ (via : List resource) (lastReq : Option resource),
      11 ≤ via.length + chain.length → via.length ≤ 10 →
      (followChain via chain lastReq).2 = true := by
  induction chain with
  | nil =>
    intro via lastReq h1 h2
    exfalso
    simp at h1
    omega
  | cons r rest ih =>
    intro via lastReq h1 h2
    by_cases hv : 10 ≤ via.length
    · have hcr : checkRedirect via = some ("stopped after 10 redirects".toList) := by
        simp [checkRedirect, hv]
      simp [followChain, hcr]
    · have hcr : checkRedirect via = none := by
        simp [checkRedirect, hv]
      simp only [followChain, hcr]
      refine ih (via ++ [r]) (some r) ?_ ?_
      · simp at h1 ⊢
        omega
      · simp
        omega

/-- Claim C9: the redirect check refuses exactly the chains with ten or more
prior requests, and a cache-miss attempt whose redirect chain reaches the
bound is a failed attempt that falls through to the backup request instead
of ending the request fatally. -/
theorem C9_redirect_bound_and_fallthrough (p : QcdnProxy) (env : Upstream)
    (path : List Char) (uri : resource) (s : urlStrategy) (via : List resource)
    (hparse : parseProxyPath path = some uri)
    (hmiss : lookupA p.redirects uri = none)
    (hlen : 10 ≤ (env.tracked uri).1.length)
    (hs : lookupA p.strategies uri.base = some s)
    (hhost : uri.base.host ≠ s.backup.host) :
    ((checkRedirect via).isSome = true ↔ 10 ≤ via.length) ∧
    attemptFails (primaryOutcome p env uri) = true ∧
    (handle p env path).calls =
      [⟨uri, ClientMode.tracked⟩, ⟨⟨s.backup, uri.path⟩, ClientMode.plain⟩] := by
  have hexc : (followChain [uri] (env.tracked uri).1 none).2 = true := by
    refine followChain_exceeded _ [uri] none ?_ (by simp)
    simp
    omega
  have hfail : attemptFails (primaryOutcome p env uri) = true := by
    simp [primaryOutcome, hmiss, hexc, attemptFails]
  refine ⟨?_, hfail, ?_⟩
  · by_cases h : 10 ≤ via.length <;> simp [checkRedirect, h]
  · rw [handle_primary_fails p env path uri hparse hfail]
    have hah : attemptedHost p uri = uri.base.host := by
      simp [attemptedHost, hmiss]
    have hpc : primaryCall p uri = ⟨uri, ClientMode.tracked⟩ := by
      simp [primaryCall, hmiss]
    rw [hah, hpc]
    rw [handleBackup_calls_of_attempt p env uri uri.base.host [] _ s hs hhost]
    rfl

/-- A ten-hop redirect chain served by the origin for the C9 witness. -/
def chainLong : List resource := List.replicate 10 uriCached

/-- Transport oracle for the C9 witness: the primary serves a ten-hop
redirect chain; the backup is unreachable. -/
def envC9 : Upstream := ⟨fun _ => none, fun _ => (chainLong, some resp200)⟩

/-- Witness for C9: with a ten-hop chain the primary attempt fails and the
handler still issues the backup attempt. -/
theorem C9_redirect_bound_and_fallthrough_witness :
    ((checkRedirect (List.replicate 10 uriMain)).isSome = true ↔
      10 ≤ (List.replicate 10 uriMain).length) ∧
    attemptFails (primaryOutcome ⟨stMain, []⟩ envC9 uriMain) = true ∧
    (handle ⟨stMain, []⟩ envC9 pathMain).calls =
      [⟨uriMain, ClientMode.tracked⟩,
       ⟨⟨ubBackup, "/hello".toList⟩, ClientMode.plain⟩] :=
  C9_redirect_bound_and_fallthrough ⟨stMain, []⟩ envC9 pathMain uriMain
    ⟨ubBackup, ⟨[], []⟩⟩ (List.replicate 10 uriMain) (by decide) (by decide)
    (by decide) (by decide) (by decide)

/-- Transport oracle for the C1 scenario: the primary answers 200 directly
(no redirect hops), the backup is unreachable — the `TestQcdn_MainOK`
configuration. -/
def envC1 : Upstream := ⟨fun _ => none, fun _ => ([], some resp200)⟩

/-- Claim C1 (refuted by the code): with an empty cache, a non-5xx primary
response that involved no redirect does NOT terminate the handler: since
`last == nil`, the condition `serveRequest(...) && last != nil` is false and
control falls through to the strategy lookup and the backup attempt.  Here
the primary answers 200 yet a second upstream call (to the backup) is made,
and the terminal error response is appended after the already-streamed 200
body. -/
theorem C1_success_without_redirect_still_attempts_backup :
    attemptFails (primaryOutcome ⟨stMain, []⟩ envC1 uriMain) = false ∧
    (handle ⟨stMain, []⟩ envC1 pathMain).calls =
      [⟨uriMain, ClientMode.tracked⟩,
       ⟨⟨ubBackup, "/hello".toList⟩, ClientMode.plain⟩] ∧
    (handle ⟨stMain, []⟩ envC1 pathMain).events =
      [RespEvent.header 200 [], RespEvent.bodyChunk ("payload".toList)] ++
        httpError ("both main and backup server fail".toList) 500 := by
  exact ⟨by decide, by decide, by decide⟩

/-- Lookup after inserting a different key is lookup in the old map. -/
theorem lookupA_insertA_ne {α β : Type} [DecidableEq α]
    (m : List (α × β)) (k k2 : α) (v : β) (h : k2 ≠ k) :
    lookupA (insertA m k v) k2 = lookupA m k2 := by
  simp [insertA, lookupA, h]

/-- The backup phase writes the cache only for the decoded key, and only
after a non-5xx response from the backup origin. -/
theorem handleBackup_insert_justified (p : QcdnProxy) (env : Upstream)
    (uri : resource) (curHost : List Char) (evs : List RespEvent)
    (calls : List UpstreamCall) (k : resource)
    (hnew : (lookupA (handleBackup p env uri curHost evs calls).redirects
      k).isSome = true)
    (hold : lookupA p.redirects k = none) :
    k = uri ∧ backupSuccess p env uri := by
  cases hstr : lookupA p.strategies uri.base with
  | none =>
    have hred : (handleBackup p env uri curHost evs calls).redirects =
        p.redirects := by
      simp [handleBackup, hstr]
    rw [hred, hold] at hnew
    simp at hnew
  | some s =>
    by_cases hhost : curHost ≠ s.backup.host
    · by_cases hsr : (serveRequest (env.plain ⟨s.backup, uri.path⟩)).2 = true
      · have hred : (handleBackup p env uri curHost evs calls).redirects =
            insertA p.redirects uri ⟨s.backup, uri.path⟩ := by
          simp [handleBackup, hstr, hhost, hsr]
        rw [hred] at hnew
        by_cases hk : k = uri
        · obtain ⟨r, hr, hr5⟩ := serveRequest_true _ hsr
          exact ⟨hk, s, r, hstr, hr, hr5⟩
        · rw [lookupA_insertA_ne _ _ _ _ hk, hold] at hnew
          simp at hnew
      · have hred : (handleBackup p env uri curHost evs calls).redirects =
            p.redirects := by
          simp [handleBackup, hstr, hhost, hsr]
        rw [hred, hold] at hnew
        simp at hnew
    · have hred : (handleBackup p env uri curHost evs calls).redirects =
          p.redirects := by
        simp [handleBackup, hstr, hhost]
      rw [hred, hold] at hnew
      simp at hnew

/-- A key that appears in the cache during one `handle` invocation is the
decoded key of that request, inserted after a successful non-5xx fetch that
observed a redirect or hit the backup origin. -/
theorem handle_insert_justified (p : QcdnProxy) (env : Upstream)
    (path : List Char) (k : resource)
    (hnew : (lookupA (handle p env path).redirects k).isSome = true)
    (hold : lookupA p.redirects k = none) :
    parseProxyPath path = some k ∧
    (redirectObservedSuccess p env k ∨ backupSuccess p env k) := by
  cases hparse : parseProxyPath path with
  | none =>
    rw [handle_parse_none p env path hparse] at hnew
    rw [hold] at hnew
    simp at hnew
  | some uri =>
    cases hhit : lookupA p.redirects uri with
    | some c =>
      by_cases hsr : (serveRequest (env.plain c)).2 = true
      · have hred : (handle p env path).redirects = p.redirects := by
          simp [handle, hparse, hhit, hsr]
        rw [hred, hold] at hnew
        simp at hnew
      · have hh : handle p env path = handleBackup p env uri c.base.host
            (serveRequest (env.plain c)).1 [⟨c, ClientMode.plain⟩] := by
          simp [handle, hparse, hhit, hsr]
        rw [hh] at hnew
        obtain ⟨hk, _⟩ :=
          handleBackup_insert_justified p env uri c.base.host _ _ k hnew hold
        subst hk
        rw [hhit] at hold
        simp at hold
    | none =>
      cases hfc : (followChain [uri] (env.tracked uri).1 none).1 with
      | some lastReq =>
        by_cases hsr : (serveRequest
            (if (followChain [uri] (env.tracked uri).1 none).2 then none
             else (env.tracked uri).2)).2 = true
        · have hred : (handle p env path).redirects =
              insertA p.redirects uri lastReq := by
            simp [handle, hparse, hhit, hfc, hsr]
          rw [hred] at hnew
          by_cases hk : k = uri
          · subst hk
            cases hfc2 : (followChain [k] (env.tracked k).1 none).2 with
            | true =>
              rw [hfc2] at hsr
              simp [serveRequest] at hsr
            | false =>
              rw [hfc2] at hsr
              simp at hsr
              obtain ⟨r, hr, hr5⟩ := serveRequest_true _ hsr
              exact ⟨rfl, Or.inl ⟨hhit, by simp [hfc], hfc2, r, hr, hr5⟩⟩
          · rw [lookupA_insertA_ne _ _ _ _ hk, hold] at hnew
            simp at hnew
        · have hh : handle p env path = handleBackup p env uri uri.base.host
              (serveRequest
                (if (followChain [uri] (env.tracked uri).1 none).2 then none
                 else (env.tracked uri).2)).1 [⟨uri, ClientMode.tracked⟩] := by
            simp [handle, hparse, hhit, hfc, hsr]
          rw [hh] at hnew
          obtain ⟨hk, hbs⟩ := handleBackup_insert_justified p env uri
            uri.base.host _ _ k hnew hold
          subst hk
          exact ⟨rfl, Or.inr hbs⟩
      | none =>
        have hh : handle p env path = handleBackup p env uri uri.base.host
            (serveRequest
              (if (followChain [uri] (env.tracked uri).1 none).2 then none
               else (env.tracked uri).2)).1 [⟨uri, ClientMode.tracked⟩] := by
          simp [handle, hparse, hhit, hfc]
        rw [hh] at hnew
        obtain ⟨hk, hbs⟩ := handleBackup_insert_justified p env uri
          uri.base.host _ _ k hnew hold
        subst hk
        exact ⟨rfl, Or.inr hbs⟩

/-- One invocation either leaves the cache alone or inserts one binding for
the decoded key. -/
theorem handleBackup_redirects_cases (p : QcdnProxy) (env : Upstream)
    (uri : resource) (curHost : List Char) (evs : List RespEvent)
    (calls : List UpstreamCall) :
    (handleBackup p env uri curHost evs calls).redirects = p.redirects ∨
    ∃ v, (handleBackup p env uri curHost evs calls).redirects =
      insertA p.redirects uri v := by
  cases hstr : lookupA p.strategies uri.base with
  | none => exact Or.inl (by simp [handleBackup, hstr])
  | some s =>
    by_cases hhost : curHost ≠ s.backup.host
    · by_cases hsr : (serveRequest (env.plain ⟨s.backup, uri.path⟩)).2 = true
      · exact Or.inr ⟨⟨s.backup, uri.path⟩,
          by simp [handleBackup, hstr, hhost, hsr]⟩
      · exact Or.inl (by simp [handleBackup, hstr, hhost, hsr])
    · exact Or.inl (by simp [handleBackup, hstr, hhost])

/-- `handle` either leaves the cache alone or inserts one binding. -/
theorem handle_redirects_cases (p : QcdnProxy) (env : Upstream)
    (path : List Char) :
    (handle p env path).redirects = p.redirects ∨
    ∃ u v, (handle p env path).redirects = insertA p.redirects u v := by
  cases hparse : parseProxyPath path with
  | none => exact Or.inl (by rw [handle_parse_none p env path hparse])
  | some uri =>
    cases hhit : lookupA p.redirects uri with
    | some c =>
      by_cases hsr : (serveRequest (env.plain c)).2 = true
      · exact Or.inl (by simp [handle, hparse, hhit, hsr])
      · have hh : handle p env path = handleBackup p env uri c.base.host
            (serveRequest (env.plain c)).1 [⟨c, ClientMode.plain⟩] := by
          simp [handle, hparse, hhit, hsr]
        rw [hh]
        rcases handleBackup_redirects_cases p env uri c.base.host _ _ with
          hc | ⟨v, hv⟩
        · exact Or.inl hc
        · exact Or.inr ⟨uri, v, hv⟩
    | none =>
      cases hfc : (followChain [uri] (env.tracked uri).1 none).1 with
      | some lastReq =>
        by_cases hsr : (serveRequest
            (if (followChain [uri] (env.tracked uri).1 none).2 then none
             else (env.tracked uri).2)).2 = true
        · exact Or.inr ⟨uri, lastReq, by simp [handle, hparse, hhit, hfc, hsr]⟩
        · have hh : handle p env path = handleBackup p env uri uri.base.host
              (serveRequest
                (if (followChain [uri] (env.tracked uri).1 none).2 then none
                 else (env.tracked uri).2)).1 [⟨uri, ClientMode.tracked⟩] := by
            simp [handle, hparse, hhit, hfc, hsr]
          rw [hh]
          rcases handleBackup_redirects_cases p env uri uri.base.host _ _ with
            hc | ⟨v, hv⟩
          · exact Or.inl hc
          · exact Or.inr ⟨uri, v, hv⟩
      | none =>
        have hh : handle p env path = handleBackup p env uri uri.base.host
            (serveRequest
              (if (followChain [uri] (env.tracked uri).1 none).2 then none
               else (env.tracked uri).2)).1 [⟨uri, ClientMode.tracked⟩] := by
          simp [handle, hparse, hhit, hfc]
        rw [hh]
        rcases handleBackup_redirects_cases p env uri uri.base.host _ _ with
          hc | ⟨v, hv⟩
        · exact Or.inl hc
        · exact Or.inr ⟨uri, v, hv⟩

/-- The handler never deletes a cache entry. -/
theorem handle_redirects_monotone (p : QcdnProxy) (env : Upstream)
    (path : List Char) (k : resource)
    (h : (lookupA p.redirects k).isSome = true) :
    (lookupA (handle p env path).redirects k).isSome = true := by
  rcases handle_redirects_cases p env path with hc | ⟨u, v, hc⟩
  · rw [hc]
    exact h
  · rw [hc]
    exact lookupA_insertA_isSome _ _ _ _ h

/-- `runFrom` consumes its history one invocation at a time. -/
theorem runFrom_cons (st : List (urlBase × urlStrategy))
    (m : List (resource × resource)) (s : Upstream × List Char)
    (tr : List (Upstream × List Char)) :
    runFrom st m (s :: tr) =
      runFrom st (handle ⟨st, m⟩ s.1 s.2).redirects tr := rfl

/-- If a key is present after running a history from a state in which it was
absent, then that very history splits around the invocation that inserted
it: the key is still absent after the prefix, the named invocation inserts
it from the state the prefix actually reached, it decodes exactly that key,
and its fetch was a justified (redirect-observed or backup) success. -/
theorem runFrom_insert_provenance (st : List (urlBase × urlStrategy))
    (tr : List (Upstream × List Char)) :
    ∀ (m : List (resource × resource)) (k : resource),
      (lookupA (runFrom st m tr) k).isSome = true →
      lookupA m k = none →
      ∃ tr1 env path tr2, tr = tr1 ++ (env, path) :: tr2 ∧
        lookupA (runFrom st m tr1) k = none ∧
        (lookupA (handle ⟨st, runFrom st m tr1⟩ env path).redirects
          k).isSome = true ∧
        parseProxyPath path = some k ∧
        (redirectObservedSuccess ⟨st, runFrom st m tr1⟩ env k ∨
          backupSuccess ⟨st, runFrom st m tr1⟩ env k) := by
  induction tr with
  | nil =>
    intro m k hk hold
    rw [show runFrom st m [] = m from rfl, hold] at hk
    simp at hk
  | cons s rest ih =>
    intro m k hk hold
    obtain ⟨env0, path0⟩ := s
    rw [runFrom_cons] at hk
    by_cases h1 : (lookupA (handle ⟨st, m⟩ env0 path0).redirects k).isSome = true
    · obtain ⟨hp, hj⟩ := handle_insert_justified ⟨st, m⟩ env0 path0 k h1 hold
      exact ⟨[], env0, path0, rest, rfl, hold, h1, hp, hj⟩
    · have h1n : lookupA (handle ⟨st, m⟩ env0 path0).redirects k = none := by
        cases hc : lookupA (handle ⟨st, m⟩ env0 path0).redirects k with
        | none => rfl
        | some v => rw [hc] at h1; simp at h1
      obtain ⟨tr1, env, path, tr2, htr, ha, hb, hc2, hd⟩ :=
        ih (handle ⟨st, m⟩ env0 path0).redirects k hk h1n
      exact ⟨(env0, path0) :: tr1, env, path, tr2, by rw [htr]; rfl,
        ha, hb, hc2, hd⟩

/-- Claim C6: a key is present in the redirect cache produced by an actual
history of handler invocations only because that history contains an
invocation that, from the cache state the preceding invocations actually
produced (the key still absent there), decoded exactly that key and
completed a successful non-5xx upstream fetch that either observed a
redirect or succeeded against the backup origin; moreover no invocation
ever deletes a present entry. -/
theorem C6_cache_entry_provenance (st : List (urlBase × urlStrategy))
    (tr : List (Upstream × List Char)) (k : resource) (env2 : Upstream)
    (path2 : List Char)
    (hk : (lookupA (runTrace st tr) k).isSome = true) :
    (∃ tr1 env path tr2, tr = tr1 ++ (env, path) :: tr2 ∧
      lookupA (runTrace st tr1) k = none ∧
      (lookupA (handle ⟨st, runTrace st tr1⟩ env path).redirects
        k).isSome = true ∧
      parseProxyPath path = some k ∧
      (redirectObservedSuccess ⟨st, runTrace st tr1⟩ env k ∨
        backupSuccess ⟨st, runTrace st tr1⟩ env k)) ∧
    (lookupA (handle ⟨st, runTrace st tr⟩ env2 path2).redirects
      k).isSome = true := by
  refine ⟨?_, handle_redirects_monotone ⟨st, runTrace st tr⟩ env2 path2 k hk⟩
  exact runFrom_insert_provenance st tr [] k hk rfl

/-- Witness for C6 on the one-invocation history in which the primary
answers 500 and the backup answers 200: the cached entry for `uriMain` is
justified by the backup success of that very invocation, and a further
invocation does not delete it. -/
theorem C6_cache_entry_provenance_witness :
    (∃ tr1 env path tr2, [((envC4, pathMain) : Upstream × List Char)] =
        tr1 ++ (env, path) :: tr2 ∧
      lookupA (runTrace stMain tr1) uriMain = none ∧
      (lookupA (handle ⟨stMain, runTrace stMain tr1⟩ env path).redirects
        uriMain).isSome = true ∧
      parseProxyPath path = some uriMain ∧
      (redirectObservedSuccess ⟨stMain, runTrace stMain tr1⟩ env uriMain ∨
        backupSuccess ⟨stMain, runTrace stMain tr1⟩ env uriMain)) ∧
    (lookupA (handle ⟨stMain, runTrace stMain [(envC4, pathMain)]⟩ envNoNet
        pathMain).redirects uriMain).isSome = true :=
  C6_cache_entry_provenance stMain [(envC4, pathMain)] uriMain envNoNet
    pathMain (by decide)

end Qcdn
